import Mathlib

/-
Verification of the forwardhook JSON path engine and dispatch handler
(src/main.rs), as a shallow embedding in Lean 4.

The embedding mirrors the Rust source:
  - JsonValue is the serde_json value tree; objects are insertion-ordered
    association lists with a first-match lookup, matching the behaviour of
    the serde_json map on the states the program produces.
  - OrInsertJsonValue and the two get_or_insert_mut implementations follow
    lines 66-102 of main.rs.  The array variant returns Option: none models
    the unwrap panic that occurs when the length equals the index and the
    length < index extension test did not fire.
  - fromRead models fn from (lines 283-310): the route id argument of the
    Rust function is used only for log messages and is omitted here.
  - writeTo and writeValue model the write-materialization loop of the
    handler (lines 231-261); processFields models the field loop
    (lines 219-262); handler models the dispatch (lines 206-281) with the
    outbound HTTP call abstracted by a boolean upstreamOk and a flag
    recording whether a network call was attempted.
-/

namespace Forwardhook

inductive JsonValue where
  | null : JsonValue
  | bool (b : Bool) : JsonValue
  | num (n : Int) : JsonValue
  | str (s : String) : JsonValue
  | arr (items : List JsonValue) : JsonValue
  | obj (fields : List (String × JsonValue)) : JsonValue

abbrev JsonObject := List (String × JsonValue)

abbrev JsonArray := List JsonValue

/-- First-match lookup in an association list, modelling map get. -/
def alistGet {α : Type} : List (String × α) → String → Option α
  | [], _ => none
  | (k, v) :: rest, key => if k = key then some v else alistGet rest key

/-- Replace the value of the first entry with the given key, keeping its
position; identity when the key is absent.  Models an in-place write
through the mutable reference returned by map get_mut. -/
def alistSet : JsonObject → String → JsonValue → JsonObject
  | [], _, _ => []
  | (k, v) :: rest, key, nv =>
      if k = key then (k, nv) :: rest else (k, v) :: alistSet rest key nv

/-- main.rs lines 66-71. -/
inductive OrInsertJsonValue where
  | object : OrInsertJsonValue
  | array : OrInsertJsonValue
  | null : OrInsertJsonValue

/-- main.rs lines 72-80. -/
def OrInsertJsonValue.concrete : OrInsertJsonValue → JsonValue
  | OrInsertJsonValue.object => JsonValue.obj []
  | OrInsertJsonValue.array => JsonValue.arr []
  | OrInsertJsonValue.null => JsonValue.null

/-- main.rs lines 84-91: get_or_insert_mut on a JSON object.  Returns the
updated object together with the value now present at the key (the target
of the returned mutable reference). -/
def JsonObject.get_or_insert_mut (o : JsonObject) (key : String)
    (ins : OrInsertJsonValue) : JsonObject × JsonValue :=
  let o2 := if (alistGet o key).isSome then o else o ++ [(key, ins.concrete)]
  (o2, (alistGet o2 key).getD JsonValue.null)

/-- main.rs lines 92-102: get_or_insert_mut on a JSON array.  When
length < index, null placeholders are pushed up to length index and then
one freshly typed value; the final get_mut(index).unwrap() panics when the
index is still out of bounds, which this model renders as none. -/
def JsonArray.get_or_insert_mut (xs : JsonArray) (index : Nat)
    (ins : OrInsertJsonValue) : Option (JsonArray × JsonValue) :=
  let xs2 := if xs.length < index
    then xs ++ List.replicate (index - xs.length) JsonValue.null ++ [ins.concrete]
    else xs
  if index < xs2.length then some (xs2, xs2.getD index JsonValue.null) else none

/-- main.rs lines 165-170. -/
inductive JsonPathSegment where
  | key (k : String) : JsonPathSegment
  | index (i : Nat) : JsonPathSegment

abbrev JsonPath := List JsonPathSegment

/-- main.rs lines 139-147. -/
inductive Method where
  | post : Method
  | put : Method
  | patch : Method

/-- main.rs lines 154-161.  The field names from and to are renamed to
fromPath and toPath because from is a reserved word in Lean. -/
structure Field where
  fromPath : JsonPath
  toPath : JsonPath
  optional : Bool

/-- main.rs lines 129-137. -/
structure Webhook where
  forwardUrl : String
  forwardMethod : Method
  fields : List Field
  reply : Option JsonObject

/-- main.rs lines 119-127. -/
structure Config where
  port : Nat
  userAgent : Option String
  webhooks : List (String × Webhook)
  debug : Bool

/-- The per-segment loop of fn from (main.rs lines 295-308): each segment
requires the current value to be an object (for a key) or an array (for an
index) and then looks the child up, failing otherwise. -/
def fromTail : JsonValue → List JsonPathSegment → Option JsonValue
  | v, [] => some v
  | v, JsonPathSegment.key k :: rest =>
      match v with
      | JsonValue.obj fields =>
          match alistGet fields k with
          | some c => fromTail c rest
          | none => none
      | _ => none
  | v, JsonPathSegment.index i :: rest =>
      match v with
      | JsonValue.arr xs =>
          match xs.get? i with
          | some c => fromTail c rest
          | none => none
      | _ => none

/-- fn from (main.rs lines 283-310): read resolution of a from-path against
the inbound body.  The first segment must be a key looked up directly in
the body object; every failure is surfaced as a rejection (none). -/
def fromRead (path : JsonPath) (body : JsonObject) : Option JsonValue :=
  match path with
  | JsonPathSegment.key k :: rest =>
      match alistGet body k with
      | some v => fromTail v rest
      | none => none
  | _ => none

/-- Modelled from the spec: the subtree located at a path of a JSON
document, used as the specification-side definition for read fidelity. -/
def subtreeAt : JsonValue → List JsonPathSegment → Option JsonValue
  | v, [] => some v
  | JsonValue.obj fields, JsonPathSegment.key k :: rest =>
      match alistGet fields k with
      | some c => subtreeAt c rest
      | none => none
  | JsonValue.arr xs, JsonPathSegment.index i :: rest =>
      match xs.get? i with
      | some c => subtreeAt c rest
      | none => none
  | _, _ => none

/-- The match_peek macro of the handler (main.rs lines 231-239): the type
of a freshly created container is chosen by peeking at the next segment. -/
def matchPeek : List JsonPathSegment → OrInsertJsonValue
  | JsonPathSegment.key _ :: _ => OrInsertJsonValue.object
  | JsonPathSegment.index _ :: _ => OrInsertJsonValue.array
  | [] => OrInsertJsonValue.null

/-- Errors a dispatch can end in.  notFound models
warp reject not_found (missing route), reject models warp reject (all
logged rejections), crash models the unwrap panic in the array
get_or_insert_mut. -/
inductive HandlerError where
  | notFound : HandlerError
  | reject : HandlerError
  | crash : HandlerError

/-- The write-materialization descent of the handler (main.rs lines
248-259) followed by the final assignment (line 261), rebuilt
functionally: descend the remaining segments through the current value,
then write the new value at the terminal location. -/
def writeValue (cur : JsonValue) (segs : List JsonPathSegment)
    (v : JsonValue) : Except HandlerError JsonValue :=
  match segs with
  | [] => Except.ok v
  | JsonPathSegment.key k :: rest =>
      match cur with
      | JsonValue.obj fields =>
          let r := JsonObject.get_or_insert_mut fields k (matchPeek rest)
          (writeValue r.2 rest v).map
            (fun c => JsonValue.obj (alistSet r.1 k c))
      | _ => Except.error HandlerError.reject
  | JsonPathSegment.index i :: rest =>
      match cur with
      | JsonValue.arr xs =>
          match JsonArray.get_or_insert_mut xs i (matchPeek rest) with
          | some r =>
              (writeValue r.2 rest v).map
                (fun c => JsonValue.arr (List.set r.1 i c))
          | none => Except.error HandlerError.crash
      | _ => Except.error HandlerError.reject

/-- The write of one mapping into the outgoing document (main.rs lines
241-261): the first to-segment must be a key materialized directly in the
top-level object, the rest descend via writeValue. -/
def writeTo (forwarded : JsonObject) (path : JsonPath) (v : JsonValue) :
    Except HandlerError JsonObject :=
  match path with
  | JsonPathSegment.key k :: rest =>
      let r := JsonObject.get_or_insert_mut forwarded k (matchPeek rest)
      (writeValue r.2 rest v).map (fun c => alistSet r.1 k c)
  | _ => Except.error HandlerError.reject

/-- The field loop of the handler (main.rs lines 219-262): read each
mapping, skipping a failed read when the mapping is optional and aborting
otherwise, then materialize the write path and assign. -/
def processFields (body : JsonObject) :
    List Field → JsonObject → Except HandlerError JsonObject
  | [], forwarded => Except.ok forwarded
  | f :: rest, forwarded =>
      match fromRead f.fromPath body with
      | none =>
          if f.optional then processFields body rest forwarded
          else Except.error HandlerError.reject
      | some v =>
          match writeTo forwarded f.toPath v with
          | Except.ok fwd2 => processFields body rest fwd2
          | Except.error e => Except.error e

structure HandlerOutcome where
  result : Except HandlerError JsonObject
  networkCalled : Bool

/-- fn handler (main.rs lines 206-281).  The outbound HTTP call is
abstracted by upstreamOk; networkCalled records whether a send was
attempted.  On success with debug off the reply object (or an empty
object) is returned; with debug on the outgoing document is returned and
no call is made. -/
def handler (id : String) (body : JsonObject) (config : Config)
    (upstreamOk : Bool) : HandlerOutcome :=
  match alistGet config.webhooks id with
  | none => { result := Except.error HandlerError.notFound, networkCalled := false }
  | some w =>
      match processFields body w.fields [] with
      | Except.error e => { result := Except.error e, networkCalled := false }
      | Except.ok forwarded =>
          if !config.debug then
            if upstreamOk then
              { result := Except.ok (w.reply.getD []), networkCalled := true }
            else
              { result := Except.error HandlerError.reject, networkCalled := true }
          else
            { result := Except.ok forwarded, networkCalled := false }

/-! Helper lemmas about association lists and the get-or-insert primitives. -/

theorem alistGet_append_of_none {α : Type} (o : List (String × α)) (k : String)
    (x : α) (h : alistGet o k = none) : alistGet (o ++ [(k, x)]) k = some x := by
  induction o with
  | nil => simp [alistGet]
  | cons p rest ih =>
      obtain ⟨k0, v0⟩ := p
      by_cases hk : k0 = k
      · simp [alistGet, hk] at h
      · simp only [alistGet, List.cons_append, if_neg hk] at h ⊢
        exact ih h

theorem alistGet_set_self (m : JsonObject) (k : String) (v w : JsonValue)
    (h : alistGet m k = some w) : alistGet (alistSet m k v) k = some v := by
  induction m with
  | nil => simp [alistGet] at h
  | cons p rest ih =>
      obtain ⟨k0, v0⟩ := p
      by_cases hk : k0 = k
      · simp [alistGet, alistSet, hk]
      · simp only [alistGet, alistSet, if_neg hk] at h ⊢
        exact ih h

theorem alistSet_set (m : JsonObject) (k : String) (a b : JsonValue) :
    alistSet (alistSet m k a) k b = alistSet m k b := by
  induction m with
  | nil => simp [alistSet]
  | cons p rest ih =>
      obtain ⟨k0, v0⟩ := p
      by_cases hk : k0 = k
      · simp [alistSet, hk]
      · simp [alistSet, hk, ih]

theorem objGOI_get (o : JsonObject) (k : String) (ins : OrInsertJsonValue) :
    alistGet (JsonObject.get_or_insert_mut o k ins).1 k
      = some (JsonObject.get_or_insert_mut o k ins).2 := by
  unfold JsonObject.get_or_insert_mut
  cases h : alistGet o k with
  | some v => simp [h]
  | none => simp [h, alistGet_append_of_none o k ins.concrete h]

theorem objGOI_of_get (o : JsonObject) (k : String) (ins : OrInsertJsonValue)
    (v : JsonValue) (h : alistGet o k = some v) :
    JsonObject.get_or_insert_mut o k ins = (o, v) := by
  unfold JsonObject.get_or_insert_mut
  simp [h]

theorem arrGOI_of_lt (xs : JsonArray) (i : Nat) (ins : OrInsertJsonValue)
    (h : i < xs.length) :
    JsonArray.get_or_insert_mut xs i ins
      = some (xs, xs.getD i JsonValue.null) := by
  unfold JsonArray.get_or_insert_mut
  have h2 : ¬ xs.length < i := by omega
  simp [h2, h]

theorem arrGOI_lt (xs : JsonArray) (i : Nat) (ins : OrInsertJsonValue)
    (r : JsonArray × JsonValue)
    (h : JsonArray.get_or_insert_mut xs i ins = some r) :
    i < r.1.length ∧ r.2 = r.1.getD i JsonValue.null := by
  unfold JsonArray.get_or_insert_mut at h
  by_cases hlen : i < (if xs.length < i
      then xs ++ List.replicate (i - xs.length) JsonValue.null ++ [ins.concrete]
      else xs).length
  · simp only [if_pos hlen] at h
    cases h
    exact ⟨hlen, rfl⟩
  · simp only [if_neg hlen] at h
    cases h

theorem arrGOI_set (xs : JsonArray) (i : Nat) (c : JsonValue)
    (ins : OrInsertJsonValue) (h : i < xs.length) :
    JsonArray.get_or_insert_mut (List.set xs i c) i ins
      = some (List.set xs i c, c) := by
  have hlen : (List.set xs i c).length = xs.length := List.length_set xs i c
  have hget : (List.set xs i c).getD i JsonValue.null = c := by
    rw [List.getD_eq_getElem?_getD, List.getElem?_set_eq_of_lt c h]
    rfl
  rw [arrGOI_of_lt _ _ _ (by omega), hget]

theorem fromTail_eq_subtreeAt (segs : List JsonPathSegment) :
    ∀ v : JsonValue, fromTail v segs = subtreeAt v segs := by
  induction segs with
  | nil => intro v; simp [fromTail, subtreeAt]
  | cons s rest ih =>
      intro v
      cases s with
      | key k =>
          cases v <;> simp only [fromTail, subtreeAt]
          cases alistGet _ k with
          | none => rfl
          | some c => exact ih c
      | index i =>
          cases v <;> simp only [fromTail, subtreeAt]
          cases List.get? _ i with
          | none => rfl
          | some c => exact ih c

theorem writeValue_subtree (segs : List JsonPathSegment) :
    ∀ cur v c : JsonValue, writeValue cur segs v = Except.ok c →
      subtreeAt c segs = some v := by
  induction segs with
  | nil =>
      intro cur v c h
      simp only [writeValue] at h
      cases h
      simp [subtreeAt]
  | cons s rest ih =>
      intro cur v c h
      cases s with
      | key k =>
          cases cur with
          | obj fields =>
              simp only [writeValue] at h
              cases hw : writeValue
                  (JsonObject.get_or_insert_mut fields k (matchPeek rest)).2
                  rest v with
              | error e => rw [hw] at h; simp [Except.map] at h
              | ok c0 =>
                  rw [hw] at h
                  simp only [Except.map] at h
                  cases h
                  simp only [subtreeAt]
                  rw [alistGet_set_self _ _ _ _ (objGOI_get fields k (matchPeek rest))]
                  exact ih _ _ _ hw
          | null => simp [writeValue] at h
          | bool b => simp [writeValue] at h
          | num n => simp [writeValue] at h
          | str s0 => simp [writeValue] at h
          | arr xs => simp [writeValue] at h
      | index i =>
          cases cur with
          | arr xs =>
              simp only [writeValue] at h
              cases hg : JsonArray.get_or_insert_mut xs i (matchPeek rest) with
              | none => rw [hg] at h; simp at h
              | some r =>
                  rw [hg] at h
                  replace h : (writeValue r.2 rest v).map
                      (fun c2 => JsonValue.arr (List.set r.1 i c2))
                        = Except.ok c := h
                  cases hw : writeValue r.2 rest v with
                  | error e => rw [hw] at h; simp [Except.map] at h
                  | ok c0 =>
                      rw [hw] at h
                      simp only [Except.map] at h
                      cases h
                      obtain ⟨hlt, -⟩ := arrGOI_lt xs i _ r hg
                      simp only [subtreeAt]
                      rw [List.get?_eq_getElem?, List.getElem?_set_eq_of_lt c0 hlt]
                      exact ih _ _ _ hw
          | null => simp [writeValue] at h
          | bool b => simp [writeValue] at h
          | num n => simp [writeValue] at h
          | str s0 => simp [writeValue] at h
          | obj fields => simp [writeValue] at h

theorem writeValue_overwrite (segs : List JsonPathSegment) :
    ∀ cur v1 v2 c1 : JsonValue, writeValue cur segs v1 = Except.ok c1 →
      writeValue c1 segs v2 = writeValue cur segs v2 := by
  induction segs with
  | nil =>
      intro cur v1 v2 c1 h
      simp [writeValue]
  | cons s rest ih =>
      intro cur v1 v2 c1 h
      cases s with
      | key k =>
          cases cur with
          | obj fields =>
              simp only [writeValue] at h
              cases hw : writeValue
                  (JsonObject.get_or_insert_mut fields k (matchPeek rest)).2
                  rest v1 with
              | error e => rw [hw] at h; simp [Except.map] at h
              | ok c0 =>
                  rw [hw] at h
                  simp only [Except.map] at h
                  cases h
                  have hget : alistGet
                      (alistSet (JsonObject.get_or_insert_mut fields k
                        (matchPeek rest)).1 k c0) k = some c0 :=
                    alistGet_set_self _ _ _ _ (objGOI_get fields k (matchPeek rest))
                  simp only [writeValue]
                  rw [objGOI_of_get _ _ (matchPeek rest) _ hget]
                  rw [ih _ _ v2 _ hw]
                  cases writeValue
                      (JsonObject.get_or_insert_mut fields k (matchPeek rest)).2
                      rest v2 with
                  | error e => simp [Except.map]
                  | ok c2 => simp [Except.map, alistSet_set]
          | null => simp [writeValue] at h
          | bool b => simp [writeValue] at h
          | num n => simp [writeValue] at h
          | str s0 => simp [writeValue] at h
          | arr xs => simp [writeValue] at h
      | index i =>
          cases cur with
          | arr xs =>
              simp only [writeValue] at h
              cases hg : JsonArray.get_or_insert_mut xs i (matchPeek rest) with
              | none => rw [hg] at h; simp at h
              | some r =>
                  rw [hg] at h
                  replace h : (writeValue r.2 rest v1).map
                      (fun c2 => JsonValue.arr (List.set r.1 i c2))
                        = Except.ok c1 := h
                  cases hw : writeValue r.2 rest v1 with
                  | error e => rw [hw] at h; simp [Except.map] at h
                  | ok c0 =>
                      rw [hw] at h
                      simp only [Except.map] at h
                      cases h
                      obtain ⟨hlt, -⟩ := arrGOI_lt xs i _ r hg
                      simp only [writeValue]
                      rw [hg, arrGOI_set r.1 i c0 (matchPeek rest) hlt]
                      show (writeValue c0 rest v2).map
                          (fun c2 => JsonValue.arr (List.set (List.set r.1 i c0) i c2))
                        = (writeValue r.2 rest v2).map
                          (fun c2 => JsonValue.arr (List.set r.1 i c2))
                      rw [ih _ _ v2 _ hw]
                      cases writeValue r.2 rest v2 with
                      | error e => simp [Except.map]
                      | ok c2 => simp [Except.map, List.set_set]
          | null => simp [writeValue] at h
          | bool b => simp [writeValue] at h
          | num n => simp [writeValue] at h
          | str s0 => simp [writeValue] at h
          | obj fields => simp [writeValue] at h

theorem writeValue_ok_exists (segs : List JsonPathSegment) :
    ∀ cur v1 v2 c1 : JsonValue, writeValue cur segs v1 = Except.ok c1 →
      ∃ c2, writeValue cur segs v2 = Except.ok c2 := by
  induction segs with
  | nil =>
      intro cur v1 v2 c1 h
      exact ⟨v2, by simp [writeValue]⟩
  | cons s rest ih =>
      intro cur v1 v2 c1 h
      cases s with
      | key k =>
          cases cur with
          | obj fields =>
              simp only [writeValue] at h ⊢
              cases hw : writeValue
                  (JsonObject.get_or_insert_mut fields k (matchPeek rest)).2
                  rest v1 with
              | error e => rw [hw] at h; simp [Except.map] at h
              | ok c0 =>
                  obtain ⟨c2, hc2⟩ := ih _ _ v2 _ hw
                  exact ⟨_, by rw [hc2]; rfl⟩
          | null => simp [writeValue] at h
          | bool b => simp [writeValue] at h
          | num n => simp [writeValue] at h
          | str s0 => simp [writeValue] at h
          | arr xs => simp [writeValue] at h
      | index i =>
          cases cur with
          | arr xs =>
              simp only [writeValue] at h ⊢
              cases hg : JsonArray.get_or_insert_mut xs i (matchPeek rest) with
              | none => rw [hg] at h; simp at h
              | some r =>
                  rw [hg] at h
                  replace h : (writeValue r.2 rest v1).map
                      (fun c2 => JsonValue.arr (List.set r.1 i c2))
                        = Except.ok c1 := h
                  show ∃ c2, (writeValue r.2 rest v2).map
                      (fun c3 => JsonValue.arr (List.set r.1 i c3)) = Except.ok c2
                  cases hw : writeValue r.2 rest v1 with
                  | error e => rw [hw] at h; simp [Except.map] at h
                  | ok c0 =>
                      obtain ⟨c2, hc2⟩ := ih _ _ v2 _ hw
                      exact ⟨_, by rw [hc2]; rfl⟩
          | null => simp [writeValue] at h
          | bool b => simp [writeValue] at h
          | num n => simp [writeValue] at h
          | str s0 => simp [writeValue] at h
          | obj fields => simp [writeValue] at h

theorem writeTo_map_obj (fwd : JsonObject) (k : String)
    (rest : List JsonPathSegment) (v : JsonValue) :
    (writeTo fwd (JsonPathSegment.key k :: rest) v).map JsonValue.obj
      = writeValue (JsonValue.obj fwd) (JsonPathSegment.key k :: rest) v := by
  simp only [writeTo, writeValue]
  cases writeValue (JsonObject.get_or_insert_mut fwd k (matchPeek rest)).2 rest v <;>
    simp [Except.map]

theorem except_map_obj_inj (a b : Except HandlerError JsonObject)
    (h : a.map JsonValue.obj = b.map JsonValue.obj) : a = b := by
  cases a <;> cases b <;> simp_all [Except.map]

/-! Claim theorems. -/

/-- C1: during write materialization of an Index(i) segment reaching an
array whose length exactly equals i, the length < i extension test is
false so nothing is appended, and the access of position i then fails (the
unwrap panic, modelled as the crash error) instead of yielding a location;
in particular the first write to index 0 of a freshly created empty array
fails, and the field loop propagates the failure, so the dispatch produces
no document with a value at that position. -/
theorem claim1_index_eq_length_no_extension :
    (∀ (xs : JsonArray) (i : Nat) (rest : List JsonPathSegment)
        (v : JsonValue), xs.length = i →
      writeValue (JsonValue.arr xs) (JsonPathSegment.index i :: rest) v
        = Except.error HandlerError.crash) ∧
    (∀ (fwd : JsonObject) (k : String) (rest : List JsonPathSegment)
        (v : JsonValue), alistGet fwd k = none →
      writeTo fwd (JsonPathSegment.key k :: JsonPathSegment.index 0 :: rest) v
        = Except.error HandlerError.crash) ∧
    (∀ (body : JsonObject) (f : Field) (fs : List Field) (fwd : JsonObject)
        (v : JsonValue), fromRead f.fromPath body = some v →
      writeTo fwd f.toPath v = Except.error HandlerError.crash →
      processFields body (f :: fs) fwd = Except.error HandlerError.crash) := by
  have hcrash : ∀ (xs : JsonArray) (i : Nat) (rest : List JsonPathSegment)
      (v : JsonValue), xs.length = i →
      writeValue (JsonValue.arr xs) (JsonPathSegment.index i :: rest) v
        = Except.error HandlerError.crash := by
    intro xs i rest v hlen
    have hg : JsonArray.get_or_insert_mut xs i (matchPeek rest) = none := by
      unfold JsonArray.get_or_insert_mut
      simp [hlen]
    simp only [writeValue]
    rw [hg]
  refine ⟨hcrash, ?_, ?_⟩
  · intro fwd k rest v hget
    have hGOI : JsonObject.get_or_insert_mut fwd k
        (matchPeek (JsonPathSegment.index 0 :: rest))
          = (fwd ++ [(k, JsonValue.arr [])], JsonValue.arr []) := by
      unfold JsonObject.get_or_insert_mut
      simp [hget, matchPeek, OrInsertJsonValue.concrete,
        alistGet_append_of_none fwd k _ hget]
    simp only [writeTo]
    rw [hGOI]
    rw [hcrash [] 0 rest v rfl]
    rfl
  · intro body f fs fwd v hfrom hwrite
    simp [processFields, hfrom, hwrite]

theorem claim1_witness :
    writeValue (JsonValue.arr []) [JsonPathSegment.index 0] (JsonValue.num 42)
      = Except.error HandlerError.crash ∧
    writeTo [] [JsonPathSegment.key "items", JsonPathSegment.index 0]
        (JsonValue.num 42)
      = Except.error HandlerError.crash ∧
    processFields [("a", JsonValue.num 42)]
        [{ fromPath := [JsonPathSegment.key "a"]
           toPath := [JsonPathSegment.key "items", JsonPathSegment.index 0]
           optional := false }] []
      = Except.error HandlerError.crash := by
  obtain ⟨h1, h2, h3⟩ := claim1_index_eq_length_no_extension
  exact ⟨h1 [] 0 [] (JsonValue.num 42) rfl,
    h2 [] "items" [] (JsonValue.num 42) rfl,
    h3 [("a", JsonValue.num 42)] _ [] [] (JsonValue.num 42) rfl
      (h2 [] "items" [] (JsonValue.num 42) rfl)⟩

/-- C2: a mapping with optional true whose from path fails to resolve is
skipped, leaving the outgoing document unaffected, and the field loop
continues; a mapping with optional false whose from path fails aborts the
dispatch with the read error; and any error from the field loop makes the
handler return it with no network call made (the partial document is
discarded). -/
theorem claim2_optional_skip_required_abort :
    (∀ (body : JsonObject) (f : Field) (rest : List Field)
        (fwd : JsonObject), fromRead f.fromPath body = none →
      f.optional = true →
      processFields body (f :: rest) fwd = processFields body rest fwd) ∧
    (∀ (body : JsonObject) (f : Field) (rest : List Field)
        (fwd : JsonObject), fromRead f.fromPath body = none →
      f.optional = false →
      processFields body (f :: rest) fwd = Except.error HandlerError.reject) ∧
    (∀ (id : String) (body : JsonObject) (cfg : Config) (up : Bool)
        (w : Webhook) (e : HandlerError), alistGet cfg.webhooks id = some w →
      processFields body w.fields [] = Except.error e →
      handler id body cfg up
        = { result := Except.error e, networkCalled := false }) := by
  refine ⟨?_, ?_, ?_⟩
  · intro body f rest fwd h1 h2
    simp [processFields, h1, h2]
  · intro body f rest fwd h1 h2
    simp [processFields, h1, h2]
  · intro id body cfg up w e h1 h2
    simp [handler, h1, h2]

theorem claim2_witness :
    processFields [("a", JsonValue.num 1)]
        [{ fromPath := [JsonPathSegment.key "b"]
           toPath := [JsonPathSegment.key "x"], optional := true }] []
      = processFields [("a", JsonValue.num 1)] [] [] ∧
    processFields [("a", JsonValue.num 1)]
        [{ fromPath := [JsonPathSegment.key "b"]
           toPath := [JsonPathSegment.key "x"], optional := false }] []
      = Except.error HandlerError.reject ∧
    handler "r" [("a", JsonValue.num 1)]
        { port := 80
          userAgent := none
          webhooks := [("r",
            { forwardUrl := "u"
              forwardMethod := Method.post
              fields := [{ fromPath := [JsonPathSegment.key "b"]
                           toPath := [JsonPathSegment.key "x"]
                           optional := false }]
              reply := none })]
          debug := false } true
      = { result := Except.error HandlerError.reject
          networkCalled := false } := by
  obtain ⟨h1, h2, h3⟩ := claim2_optional_skip_required_abort
  refine ⟨h1 _ _ _ _ rfl rfl, h2 _ _ _ _ rfl rfl, h3 "r" _ _ true _ _ rfl ?_⟩
  exact h2 _ _ [] _ rfl rfl

/-- C3: write materialization shape on an empty outgoing object: the value
42 written at path a.b yields the nested object, and 42 written at
items[2] yields an array padded with two null placeholders. -/
theorem claim3_write_shape :
    writeTo [] [JsonPathSegment.key "a", JsonPathSegment.key "b"]
        (JsonValue.num 42)
      = Except.ok [("a", JsonValue.obj [("b", JsonValue.num 42)])] ∧
    writeTo [] [JsonPathSegment.key "items", JsonPathSegment.index 2]
        (JsonValue.num 42)
      = Except.ok [("items", JsonValue.arr
          [JsonValue.null, JsonValue.null, JsonValue.num 42])] := by
  constructor <;> rfl

/-- C4: read fidelity: for a document rooted at an object and a non-empty
path whose segments all resolve, fromRead returns exactly the subtree at
that path (Lean equality is structural, so key order is preserved); the
embedding is purely functional, so the traversal cannot mutate the
document. -/
theorem claim4_read_fidelity (path : JsonPath) (body : JsonObject)
    (v : JsonValue) (h1 : path ≠ [])
    (h2 : subtreeAt (JsonValue.obj body) path = some v) :
    fromRead path body = some v := by
  cases path with
  | nil => exact absurd rfl h1
  | cons s rest =>
      cases s with
      | key k =>
          replace h2 : (match alistGet body k with
            | some c => subtreeAt c rest
            | none => none) = some v := h2
          cases hg : alistGet body k with
          | none => rw [hg] at h2; exact Option.noConfusion h2
          | some c =>
              rw [hg] at h2
              replace h2 : subtreeAt c rest = some v := h2
              simp only [fromRead]
              rw [hg]
              show fromTail c rest = some v
              rw [fromTail_eq_subtreeAt]
              exact h2
      | index i =>
          replace h2 : (none : Option JsonValue) = some v := h2
          exact Option.noConfusion h2

theorem claim4_witness :
    fromRead [JsonPathSegment.key "a"] [("a", JsonValue.num 7)]
      = some (JsonValue.num 7) :=
  claim4_read_fidelity _ _ _ (List.cons_ne_nil _ _) rfl

/-- C5: only read-path errors are guarded by the optional flag: when the
from path of a mapping resolves but materializing its to path fails with a
structural error, the field loop aborts with that error for every value of
the optional flag (the flag is universally quantified here, so in
particular for optional true the write error is not swallowed). -/
theorem claim5_write_error_not_optional (body : JsonObject) (f : Field)
    (rest : List Field) (fwd : JsonObject) (v : JsonValue) (e : HandlerError)
    (hr : fromRead f.fromPath body = some v)
    (hw : writeTo fwd f.toPath v = Except.error e) :
    processFields body (f :: rest) fwd = Except.error e := by
  simp [processFields, hr, hw]

theorem claim5_witness :
    processFields [("a", JsonValue.num 5)]
        [{ fromPath := [JsonPathSegment.key "a"]
           toPath := [JsonPathSegment.key "x", JsonPathSegment.key "y"]
           optional := true }] [("x", JsonValue.num 1)]
      = Except.error HandlerError.reject :=
  claim5_write_error_not_optional _ _ _ _ _ _ rfl rfl

/-- C6: overwrite semantics: if a first write to a path succeeded, a
second write to the same path behaves exactly as a direct write of the
second value on the original document (the intermediate containers
materialized by the first write are reused unchanged), it succeeds, and
the resulting document holds the later value at that path. -/
theorem claim6_overwrite_semantics (fwd : JsonObject) (p : JsonPath)
    (v1 v2 : JsonValue) (fwd1 : JsonObject)
    (h : writeTo fwd p v1 = Except.ok fwd1) :
    writeTo fwd1 p v2 = writeTo fwd p v2 ∧
    ∃ fwd2, writeTo fwd1 p v2 = Except.ok fwd2 ∧
      subtreeAt (JsonValue.obj fwd2) p = some v2 := by
  cases p with
  | nil => simp [writeTo] at h
  | cons s rest =>
      cases s with
      | index i => simp [writeTo] at h
      | key k =>
          have h1 : writeValue (JsonValue.obj fwd)
              (JsonPathSegment.key k :: rest) v1
                = Except.ok (JsonValue.obj fwd1) := by
            rw [← writeTo_map_obj, h]; rfl
          have heq : writeTo fwd1 (JsonPathSegment.key k :: rest) v2
              = writeTo fwd (JsonPathSegment.key k :: rest) v2 := by
            apply except_map_obj_inj
            rw [writeTo_map_obj, writeTo_map_obj]
            exact writeValue_overwrite _ _ _ _ _ h1
          refine ⟨heq, ?_⟩
          obtain ⟨c2, hc2⟩ := writeValue_ok_exists _ _ v1 v2 _ h1
          have hmap := writeTo_map_obj fwd k rest v2
          rw [hc2] at hmap
          cases hto : writeTo fwd (JsonPathSegment.key k :: rest) v2 with
          | error e => rw [hto] at hmap; simp [Except.map] at hmap
          | ok fwd2 =>
              rw [hto] at hmap
              simp only [Except.map] at hmap
              have hval : writeValue (JsonValue.obj fwd)
                  (JsonPathSegment.key k :: rest) v2
                    = Except.ok (JsonValue.obj fwd2) := by
                rw [hc2, hmap]
              exact ⟨fwd2, by rw [heq, hto],
                writeValue_subtree _ _ _ _ hval⟩

theorem claim6_witness :
    writeTo [("x", JsonValue.num 1)] [JsonPathSegment.key "x"]
        (JsonValue.num 2)
      = writeTo [] [JsonPathSegment.key "x"] (JsonValue.num 2) ∧
    ∃ fwd2, writeTo [("x", JsonValue.num 1)] [JsonPathSegment.key "x"]
        (JsonValue.num 2) = Except.ok fwd2 ∧
      subtreeAt (JsonValue.obj fwd2) [JsonPathSegment.key "x"]
        = some (JsonValue.num 2) :=
  claim6_overwrite_semantics [] [JsonPathSegment.key "x"] (JsonValue.num 1)
    (JsonValue.num 2) [("x", JsonValue.num 1)] rfl

/-- C7: a path that is empty or whose first segment is an index fails
through the error channel, never a crash: read resolution rejects it,
write materialization rejects it, and for a required mapping the field
loop aborts with the rejection. -/
theorem claim7_bad_path_reject :
    (∀ (path : JsonPath) (body : JsonObject),
      (path = [] ∨ ∃ i rest2, path = JsonPathSegment.index i :: rest2) →
      fromRead path body = none) ∧
    (∀ (path : JsonPath) (fwd : JsonObject) (v : JsonValue),
      (path = [] ∨ ∃ i rest2, path = JsonPathSegment.index i :: rest2) →
      writeTo fwd path v = Except.error HandlerError.reject) ∧
    (∀ (path : JsonPath) (body : JsonObject) (fwd : JsonObject) (f : Field)
        (rest : List Field),
      (path = [] ∨ ∃ i rest2, path = JsonPathSegment.index i :: rest2) →
      f.optional = false → f.fromPath = path →
      processFields body (f :: rest) fwd
        = Except.error HandlerError.reject) := by
  have hfrom : ∀ (path : JsonPath) (body : JsonObject),
      (path = [] ∨ ∃ i rest2, path = JsonPathSegment.index i :: rest2) →
      fromRead path body = none := by
    intro path body hpath
    rcases hpath with h | ⟨i, rest2, h⟩ <;> subst h <;> rfl
  refine ⟨hfrom, ?_, ?_⟩
  · intro path fwd v hpath
    rcases hpath with h | ⟨i, rest2, h⟩ <;> subst h <;> rfl
  · intro path body fwd f rest hpath hopt hfp
    simp [processFields, hfp, hfrom path body hpath, hopt]

theorem claim7_witness :
    fromRead [JsonPathSegment.index 3] [("a", JsonValue.num 1)] = none ∧
    writeTo [] [] JsonValue.null = Except.error HandlerError.reject ∧
    processFields [("a", JsonValue.num 1)]
        [{ fromPath := []
           toPath := [JsonPathSegment.key "x"]
           optional := false }] []
      = Except.error HandlerError.reject := by
  obtain ⟨h1, h2, h3⟩ := claim7_bad_path_reject
  exact ⟨h1 _ _ (Or.inr ⟨3, [], rfl⟩), h2 _ _ _ (Or.inl rfl),
    h3 [] _ _ _ _ (Or.inl rfl) rfl rfl⟩

/-- C8: a request whose route identifier is absent from the configured
route map fails with the not-found rejection (the HTTP 404 equivalent); no
outgoing document is built and no network call is made. -/
theorem claim8_route_not_found (id : String) (body : JsonObject)
    (cfg : Config) (up : Bool) (h : alistGet cfg.webhooks id = none) :
    handler id body cfg up
      = { result := Except.error HandlerError.notFound,
          networkCalled := false } := by
  simp [handler, h]

theorem claim8_witness :
    handler "missing" []
        { port := 80
          userAgent := none
          webhooks := []
          debug := false } true
      = { result := Except.error HandlerError.notFound
          networkCalled := false } :=
  claim8_route_not_found _ _ _ _ rfl

/-- C9: when debug is enabled and the field loop succeeds, the handler
returns the constructed outgoing document with no network call; when
debug is disabled and the upstream call succeeds, it returns the
configured reply if present, else an empty JSON object, after making the
call. -/
theorem claim9_debug_and_reply :
    (∀ (id : String) (body : JsonObject) (cfg : Config) (up : Bool)
        (w : Webhook) (fwd : JsonObject),
      alistGet cfg.webhooks id = some w →
      processFields body w.fields [] = Except.ok fwd →
      cfg.debug = true →
      handler id body cfg up
        = { result := Except.ok fwd, networkCalled := false }) ∧
    (∀ (id : String) (body : JsonObject) (cfg : Config) (w : Webhook)
        (fwd : JsonObject),
      alistGet cfg.webhooks id = some w →
      processFields body w.fields [] = Except.ok fwd →
      cfg.debug = false →
      handler id body cfg true
        = { result := Except.ok (w.reply.getD []),
            networkCalled := true }) := by
  constructor
  · intro id body cfg up w fwd h1 h2 h3
    simp [handler, h1, h2, h3]
  · intro id body cfg w fwd h1 h2 h3
    simp [handler, h1, h2, h3]

theorem claim9_witness :
    handler "r" []
        { port := 80
          userAgent := none
          webhooks := [("r",
            { forwardUrl := "u"
              forwardMethod := Method.post
              fields := []
              reply := some [("ok", JsonValue.bool true)] })]
          debug := true } false
      = { result := Except.ok [], networkCalled := false } ∧
    handler "r" []
        { port := 80
          userAgent := none
          webhooks := [("r",
            { forwardUrl := "u"
              forwardMethod := Method.post
              fields := []
              reply := some [("ok", JsonValue.bool true)] })]
          debug := false } true
      = { result := Except.ok [("ok", JsonValue.bool true)]
          networkCalled := true } := by
  obtain ⟨h1, h2⟩ := claim9_debug_and_reply
  refine ⟨h1 "r" [] _ false
      { forwardUrl := "u"
        forwardMethod := Method.post
        fields := []
        reply := some [("ok", JsonValue.bool true)] } [] ?_ ?_ ?_,
    h2 "r" [] _
      { forwardUrl := "u"
        forwardMethod := Method.post
        fields := []
        reply := some [("ok", JsonValue.bool true)] } [] ?_ ?_ ?_⟩ <;> rfl

/-- C10: frame effect of the array get_or_insert_mut: on an array of
length at least i+1 it returns the existing element at position i and the
array itself completely unchanged, for every type hint, even when the
element type disagrees with the hint. -/
theorem claim10_array_frame (xs : JsonArray) (i : Nat)
    (ins : OrInsertJsonValue) (h : i + 1 ≤ xs.length) :
    JsonArray.get_or_insert_mut xs i ins
      = some (xs, xs.getD i JsonValue.null) :=
  arrGOI_of_lt xs i ins h

theorem claim10_witness :
    JsonArray.get_or_insert_mut [JsonValue.null, JsonValue.num 2] 1
        OrInsertJsonValue.object
      = some ([JsonValue.null, JsonValue.num 2], JsonValue.num 2) := by
  have h := claim10_array_frame [JsonValue.null, JsonValue.num 2] 1
    OrInsertJsonValue.object (by decide)
  exact h

end Forwardhook
